import Mathlib

/-!
Verification of the incremental indexing engine of `ordiff`.

Shallow embedding of the Go sources:
- `internal/cache/db.go` : the SQLite-backed Delta Record Store. Tables are
  modelled as lists of rows; `INSERT OR REPLACE` on a primary key is modelled
  as removing the conflicting row and appending the new one. RFC3339 date
  strings (compared as TEXT by SQLite) are modelled as integers, since for
  timestamps rendered in a uniform format lexicographic order coincides with
  chronological order.
- `internal/github/fetcher.go` : the Remote History Source client. Network
  results are supplied by an `Oracle`; every outbound call is recorded in a
  call log so that claims about "zero remote calls" are statable.
- `cmd/mcp/server.go` : the asynchronous run (`runIndexingAsync`), the
  single-flight start guard of the `index_repo` tool handler, and the status
  record. The sequence of progress values written through
  `updateIndexProgress`/`finishIndexing` is accumulated in a trace.
-/

namespace Ordiff

/-- Model of `cache.Release` (db.go). `publishedAt` models the RFC3339 string as an
integer timestamp. -/
structure Release where
  tagName     : String
  name        : String
  publishedAt : Int
  commitSHA   : String
  body        : String
  owner       : String
  repo        : String
  deriving Repr, DecidableEq

/-- Model of `cache.Commit` (db.go). -/
structure Commit where
  sha         : String
  message     : String
  author      : String
  authorEmail : String
  date        : Int
  url         : String
  owner       : String
  repo        : String
  prNumber    : Option Nat
  deriving Repr, DecidableEq

/-- Model of `cache.FileChange` (db.go). -/
structure FileChange where
  filename    : String
  additions   : Int
  deletions   : Int
  changes     : Int
  status      : String
  patch       : String
  owner       : String
  repo        : String
  fromRelease : String
  toRelease   : String
  deriving Repr, DecidableEq

/-- The SQLite database state: one list of rows per table (db.go,
`initSchema`). The schema declares `tag_name` as the sole primary key of
`releases` and `sha` as the sole primary key of `commits`; the replace
semantics below follow that schema exactly. -/
structure DBState where
  releases    : List Release
  commits     : List Commit
  fileChanges : List FileChange
  deriving Repr, DecidableEq

/-- The empty database, as produced by `initSchema` on a fresh file. -/
def DBState.empty : DBState := ⟨[], [], []⟩

/-- Model of `db.SaveRelease` : `INSERT OR REPLACE INTO releases ...`. SQLite resolves
the conflict on the primary key `tag_name` (and only on it) by deleting the
conflicting row and inserting the new one. -/
def saveRelease (db : DBState) (r : Release) : DBState :=
  { db with releases := (db.releases.filter (fun x => x.tagName ≠ r.tagName)) ++ [r] }

/-- Model of `db.SaveCommit` : `INSERT OR REPLACE INTO commits ...`, conflict resolved
on the primary key `sha` alone. -/
def saveCommit (db : DBState) (c : Commit) : DBState :=
  { db with commits := (db.commits.filter (fun x => x.sha ≠ c.sha)) ++ [c] }

/-- Model of `db.SaveFileChange` : plain `INSERT INTO file_changes ...` (the table has
an autoincrement id and no natural unique key). -/
def saveFileChange (db : DBState) (fc : FileChange) : DBState :=
  { db with fileChanges := db.fileChanges ++ [fc] }

/-- Key predicate of the `file_changes` queries:
`owner = ? AND repo = ? AND from_release = ? AND to_release = ?`. -/
def fcKeyMatch (owner repo fromRelease toRelease : String) (fc : FileChange) : Bool :=
  fc.owner = owner && fc.repo = repo &&
  fc.fromRelease = fromRelease && fc.toRelease = toRelease

/-- Model of `db.HasFileChangesCached` : `SELECT COUNT(*) FROM file_changes WHERE ...`
followed by `count > 0`. -/
def hasFileChangesCached (db : DBState) (owner repo fromRelease toRelease : String) : Bool :=
  0 < (db.fileChanges.countP (fcKeyMatch owner repo fromRelease toRelease))

/-- Model of `db.GetRelease` : `SELECT ... FROM releases WHERE owner = ? AND repo = ?
AND tag_name = ?`; `QueryRow.Scan` yields the first matching row or a
not-found error (`none`). -/
def getRelease (db : DBState) (owner repo tag : String) : Option Release :=
  db.releases.find? (fun r => r.owner = owner && r.repo = repo && r.tagName = tag)

/-- The row filter of `db.GetCommitsBetween`:
`c.owner = ? AND c.repo = ? AND r1.tag_name = ? AND r2.tag_name = ?` with the
join conditions `c.date >= r1.published_at` and `c.date <= r2.published_at`.
Note that `r1`/`r2` are not constrained to the queried owner/repo. -/
def commitsBetweenCond (owner repo fromTag toTag : String)
    (c : Commit) (r1 r2 : Release) : Bool :=
  c.owner = owner && c.repo = repo &&
  r1.tagName = fromTag && r2.tagName = toTag &&
  r1.publishedAt ≤ c.date && c.date ≤ r2.publishedAt

/-- The bag of rows produced by the three-table join of
`db.GetCommitsBetween`, before `ORDER BY`. -/
def commitsBetweenRows (db : DBState) (owner repo fromTag toTag : String) : List Commit :=
  db.commits.flatMap (fun c =>
    db.releases.flatMap (fun r1 =>
      db.releases.flatMap (fun r2 =>
        if commitsBetweenCond owner repo fromTag toTag c r1 r2 then [c] else [])))

/-- The `ORDER BY c.date ASC` ordering. -/
def dateLE (a b : Commit) : Prop := a.date ≤ b.date

instance : DecidableRel dateLE := fun a b => inferInstanceAs (Decidable (a.date ≤ b.date))

instance : IsTotal Commit dateLE := ⟨fun a b => Int.le_total a.date b.date⟩

instance : IsTrans Commit dateLE := ⟨fun _ _ _ hab hbc => Int.le_trans hab hbc⟩

/-- Model of `db.GetCommitsBetween` : the join rows ordered by commit date ascending
(SQLite promises some date-ascending arrangement; a sort of the row bag
models it). -/
def getCommitsBetween (db : DBState) (owner repo fromTag toTag : String) : List Commit :=
  List.insertionSort dateLE (commitsBetweenRows db owner repo fromTag toTag)

/-! ### Pairing (the loop of `runIndexingAsync` / `IndexAll`)

`for i := 0; i < len(releases)-1; i++ { from := releases[i+1]; to := releases[i] }`
translated structurally: at each step the head two elements give the pair
`(older = releases[i+1], newer = releases[i])`. -/

/-- The sequence of `(from, to)` pairs the indexing loop walks, in loop
order. -/
def indexPairs : List Release → List (Release × Release)
  | a :: b :: rest => (b, a) :: indexPairs (b :: rest)
  | _ => []

theorem indexPairs_length (rs : List Release) :
    (indexPairs rs).length = rs.length - 1 := by
  match rs with
  | [] => rfl
  | [_] => rfl
  | a :: b :: rest =>
    simp only [indexPairs, List.length_cons]
    rw [indexPairs_length (b :: rest)]
    simp

theorem indexPairs_get? (rs : List Release) (i : Nat) (h : i + 1 < rs.length) :
    (indexPairs rs).get? i =
      some (rs.get ⟨i + 1, h⟩, rs.get ⟨i, Nat.lt_of_succ_lt h⟩) := by
  match rs, i with
  | a :: b :: rest, 0 => rfl
  | a :: b :: rest, (j+1) =>
    have h' : j + 1 < (b :: rest).length := by
      simpa [Nat.succ_lt_succ_iff] using h
    simpa [indexPairs] using indexPairs_get? (b :: rest) j h'

/-! ### The PR number extractor (fetcher)

Go strings are modelled as `List Char`; `strings.Index` as the first index of
an occurrence of the needle. -/

/-- Does `hay` start with `needle`? (the comparison step of `strings.Index`.) -/
def startsWithChars : List Char → List Char → Bool
  | [], _ => true
  | _ :: _, [] => false
  | a :: as, b :: bs => a = b && startsWithChars as bs

/-- Model of `strings.Index hay needle` : index of the first occurrence of `needle` in
`hay`, or `none` (Go returns -1). -/
def strIndex (needle : List Char) : List Char → Option Nat
  | [] => if needle = [] then some 0 else none
  | c :: rest =>
    if startsWithChars needle (c :: rest) then some 0
    else (strIndex needle rest).map (· + 1)

/-- The digit-collecting loop of `extractPrNumber`: append digits to `acc`;
a non-digit before any digit is skipped, a non-digit after at least one digit
stops the scan. -/
def scanDigits (acc : List Char) : List Char → List Char
  | [] => acc
  | c :: rest =>
    if '0' ≤ c ∧ c ≤ '9' then scanDigits (acc ++ [c]) rest
    else if acc ≠ [] then acc
    else scanDigits acc rest

/-- Model of `fmt.Sscanf(numStr, "%d", &n)` on an all-digit string: decimal value. -/
def digitsToNat (ds : List Char) : Nat :=
  ds.foldl (fun n c => n * 10 + (c.toNat - '0'.toNat)) 0

/-- The prefix loop of `extractPrNumber`: try each prefix in order; on a hit
with at least one digit collected, return the parsed number, otherwise fall
through to the next prefix. -/
def extractLoop (msg : List Char) : List (List Char) → Option Nat
  | [] => none
  | p :: ps =>
    match strIndex p msg with
    | none => extractLoop msg ps
    | some idx =>
      let numStr := scanDigits [] (msg.drop (idx + p.length))
      if numStr ≠ [] then some (digitsToNat numStr) else extractLoop msg ps

/-- Model of `Fetcher.extractPrNumber` with its fixed prefix list
`["#", "PR #", "pull/"]`. -/
def extractPrNumber (msg : List Char) : Option Nat :=
  extractLoop msg [['#'], ['P', 'R', ' ', '#'], ['p', 'u', 'l', 'l', '/']]

/-! ### Run-State Tracker (server.go)

`IndexStatus` plus the single-flight guard at the top of the `index_repo`
tool handler. The `Error` field's `omitempty` is modelled by `""` = absent. -/

/-- Model of `mcp.IndexStatus`. -/
structure IndexStatus where
  owner     : String
  repo      : String
  isRunning : Bool
  progress  : Nat
  total     : Nat
  message   : String
  error     : String
  deriving Repr, DecidableEq

/-- The zero value of `IndexStatus` (process start). -/
def IndexStatus.empty : IndexStatus := ⟨"", "", false, 0, 0, "", ""⟩

/-- The start logic of the `index_repo` handler (server.go lines 86-106): the
argument check, then under the status lock either reject (leaving the status
untouched) or install the fresh running status. Returns
`(accepted, new status)`. -/
def tryStartIndexing (st : IndexStatus) (owner repo : String) : Bool × IndexStatus :=
  if owner = "" ∨ repo = "" then (false, st)
  else if st.isRunning then (false, st)
  else (true,
    { owner := owner, repo := repo, isRunning := true,
      progress := 0, total := 100, message := "Starting indexing...", error := "" })

/-! ### Helper lemmas for the commit-range query -/

theorem flatMap_singleton_if_eq_filter (l : List Commit) (p : Commit → Bool) :
    (l.flatMap (fun c => if p c then [c] else [])) = l.filter p := by
  induction l with
  | nil => rfl
  | cons a as ih =>
    by_cases h : p a = true
    · simp [List.flatMap_cons, h, ih, List.filter_cons]
    · simp only [Bool.not_eq_true] at h
      simp [List.flatMap_cons, h, ih, List.filter_cons]

theorem flatMap_eq_nil_of_forall {α β : Type} (l : List α) (f : α → List β)
    (h : ∀ a ∈ l, f a = []) : l.flatMap f = [] := by
  induction l with
  | nil => rfl
  | cons a as ih =>
    simp only [List.flatMap_cons, h a (List.mem_cons_self a as)]
    exact ih (fun x hx => h x (List.mem_cons_of_mem a hx))

/-- With unique tag names, a flatMap over the releases table that yields
nothing on rows with a different tag collapses to the unique row carrying the
tag. -/
theorem flatMap_unique_tag {β : Type} (rs : List Release) (t : String)
    (hnd : (rs.map Release.tagName).Nodup)
    (r0 : Release) (hr0 : r0 ∈ rs) (ht : r0.tagName = t)
    (f : Release → List β) (hf : ∀ r, r.tagName ≠ t → f r = []) :
    rs.flatMap f = f r0 := by
  induction rs with
  | nil => exact absurd hr0 (List.not_mem_nil r0)
  | cons a as ih =>
    simp only [List.map_cons, List.nodup_cons] at hnd
    rcases List.mem_cons.mp hr0 with h0 | h0
    · subst h0
      have hnil : as.flatMap f = [] := by
        refine flatMap_eq_nil_of_forall as f (fun r hr => hf r ?_)
        intro hcontra
        exact hnd.1 (by rw [ht, ← hcontra]; exact List.mem_map_of_mem Release.tagName hr)
      simp [List.flatMap_cons, hnil]
    · have hat : a.tagName ≠ t := by
        intro hcontra
        refine hnd.1 ?_
        rw [hcontra, ← ht]
        exact List.mem_map_of_mem Release.tagName h0
      simp only [List.flatMap_cons, hf a hat, List.nil_append]
      exact ih hnd.2 h0

/-- Claim-side characterization for C7: a commit of the queried repository
whose authored date lies in the window spanned by the two releases' publish
times. -/
def specCommitWindow (owner repo : String) (rFrom rTo : Release) (c : Commit) : Bool :=
  c.owner = owner && c.repo = repo &&
  rFrom.publishedAt ≤ c.date && c.date ≤ rTo.publishedAt

theorem commitsBetweenRows_eq_filter (db : DBState) (owner repo fromTag toTag : String)
    (rFrom rTo : Release)
    (hnd : (db.releases.map Release.tagName).Nodup)
    (hF : rFrom ∈ db.releases) (hFt : rFrom.tagName = fromTag)
    (hT : rTo ∈ db.releases) (hTt : rTo.tagName = toTag) :
    commitsBetweenRows db owner repo fromTag toTag =
      db.commits.filter (specCommitWindow owner repo rFrom rTo) := by
  unfold commitsBetweenRows
  have step1 : ∀ c : Commit,
      (db.releases.flatMap (fun r1 =>
        db.releases.flatMap (fun r2 =>
          if commitsBetweenCond owner repo fromTag toTag c r1 r2 then [c] else []))) =
      (if specCommitWindow owner repo rFrom rTo c then [c] else []) := by
    intro c
    rw [flatMap_unique_tag db.releases fromTag hnd rFrom hF hFt _
      (fun r1 hr1 => flatMap_eq_nil_of_forall _ _ (fun r2 _ => by
        simp [commitsBetweenCond, hr1]))]
    rw [flatMap_unique_tag db.releases toTag hnd rTo hT hTt _
      (fun r2 hr2 => by simp [commitsBetweenCond, hr2])]
    have hcond : commitsBetweenCond owner repo fromTag toTag c rFrom rTo =
        specCommitWindow owner repo rFrom rTo c := by
      simp [commitsBetweenCond, specCommitWindow, hFt, hTt]
    rw [hcond]
  calc db.commits.flatMap (fun c =>
        db.releases.flatMap (fun r1 =>
          db.releases.flatMap (fun r2 =>
            if commitsBetweenCond owner repo fromTag toTag c r1 r2 then [c] else [])))
      = db.commits.flatMap (fun c =>
          if specCommitWindow owner repo rFrom rTo c then [c] else []) := by
        exact List.flatMap_congr (fun c _ => step1 c)
    _ = db.commits.filter (specCommitWindow owner repo rFrom rTo) :=
        flatMap_singleton_if_eq_filter _ _

/-! ### The Remote History Source and the asynchronous run (server.go)

The GitHub client is replaced by an `Oracle` fixing what the remote returns;
outbound calls are logged so that "zero remote calls" claims are statable.
Pagination of `CompareCommits` is collapsed into one logical call: the
per-page progress callback passed by `runIndexingAsync` is a no-op
(`func(current, total int) {}`), so page boundaries have no observable
effect; a fetch is one oracle consultation that either yields the full
result or fails. -/

/-- One outbound call to the Remote History Source. -/
inductive RemoteCall where
  | compareCommits (fromSHA toSHA : String)
  | diffFiles (fromSHA toSHA : String)
  deriving Repr, DecidableEq

/-- The environment of one run: the paginated release listing, the
compare/diff endpoints (which may fail), and whether the SQLite query behind
`HasFileChangesCached` fails for a given key. -/
structure Oracle where
  releasePages    : List (List Release)
  compareCommits  : String → String → Except String (List Commit)
  diffFiles       : String → String → Except String (List FileChange)
  cacheCheckFails : String → String → String → String → Bool

/-- The page loop of `Fetcher.FetchAllReleasesForIndexing`. The remaining
pages drive the loop; `page` is the 1-based current page number and
`totalPages` the value of the Go variable of the same name. `resp.NextPage`
is `page + 1` while further pages remain and `0` on the last page, so the
guard `NextPage > page` always holds and `totalPages` freezes at the first
`NextPage`. Returns the accumulated releases and the list of progress values
passed to the `onProgress` callback (each with total 100). -/
def fetchReleasesLoop : List (List Release) → Nat → Nat → List Release × List Nat
  | [], _, _ => ([], [])
  | [items], _, _ => (items, [])
  | items :: next :: rest, page, totalPages =>
    let totalPages := if totalPages = 0 then page + 1 else totalPages
    let newPage := page + 1
    let prog := newPage * 100 / totalPages
    let res := fetchReleasesLoop (next :: rest) newPage totalPages
    (items ++ res.1, prog :: res.2)

/-- Model of `Fetcher.FetchAllReleasesForIndexing` (infallible in the model:
the fatal listing-failure path aborts the run before any further progress
write and is not needed by the claims). -/
def fetchAllReleasesForIndexing (o : Oracle) : List Release × List Nat :=
  fetchReleasesLoop o.releasePages 1 0

/-- Model of `Fetcher.FetchCommitsForIndexing`: the guard returns an empty
result without touching the network when either commit identifier is empty;
otherwise one logged oracle call. -/
def fetchCommitsForIndexing (o : Oracle) (fromSHA toSHA : String) :
    Except String (List Commit) × List RemoteCall :=
  if fromSHA = "" ∨ toSHA = "" then (Except.ok [], [])
  else (o.compareCommits fromSHA toSHA, [RemoteCall.compareCommits fromSHA toSHA])

/-- Model of `Fetcher.FetchFileChangesForIndexing`: same guard, one logged
oracle call. -/
def fetchFileChangesForIndexing (o : Oracle) (fromSHA toSHA : String) :
    Except String (List FileChange) × List RemoteCall :=
  if fromSHA = "" ∨ toSHA = "" then (Except.ok [], [])
  else (o.diffFiles fromSHA toSHA, [RemoteCall.diffFiles fromSHA toSHA])

/-- The call `alreadyCached, _ := db.HasFileChangesCached(...)` as it behaves
in `runIndexingAsync`: on a query error the Go function returns
`(false, err)` and the caller discards the error, so a failing check yields
`false`. -/
def hasFileChangesCachedCall (o : Oracle) (db : DBState)
    (owner repo fromRelease toRelease : String) : Bool :=
  if o.cacheCheckFails owner repo fromRelease toRelease then false
  else hasFileChangesCached db owner repo fromRelease toRelease

/-- The mutable state of one asynchronous run: the database, the
`processed`/`skipped` counters, the log of remote calls made so far, and the
sequence of progress values written to the shared status record (each write
carries total 100). -/
structure RunState where
  db            : DBState
  processed     : Nat
  skipped       : Nat
  calls         : List RemoteCall
  progressTrace : List Nat
  deriving Repr

/-- The not-cached branch of the pair loop of `runIndexingAsync`
(server.go lines 287-315): count the pair as processed, write the progress
estimate, fetch commits (on failure, continue), save them, fetch file
changes (on failure, continue), stamp them with the pair's tags and save
them. `totalPairs - st.skipped - processed` is the Go `pendingPairs`; it is
non-negative whenever `processed + skipped` cannot exceed `totalPairs`, so
truncated subtraction agrees with Go's int arithmetic there. -/
def processPairFetch (o : Oracle) (totalPairs : Nat) (st : RunState)
    (pr : Release × Release) : RunState :=
  let processed := st.processed + 1
  let pendingPairs := totalPairs - st.skipped - processed
  let prog := 30 + processed * 70 / (processed + pendingPairs + 1)
  let st1 := { st with processed := processed,
                       progressTrace := st.progressTrace ++ [prog] }
  match fetchCommitsForIndexing o pr.1.commitSHA pr.2.commitSHA with
  | (Except.error _, ccalls) => { st1 with calls := st1.calls ++ ccalls }
  | (Except.ok commits, ccalls) =>
    let st2 := { st1 with db := commits.foldl saveCommit st1.db,
                          calls := st1.calls ++ ccalls }
    match fetchFileChangesForIndexing o pr.1.commitSHA pr.2.commitSHA with
    | (Except.error _, fcalls) => { st2 with calls := st2.calls ++ fcalls }
    | (Except.ok files, fcalls) =>
      let stamped := files.map (fun fc =>
        { fc with fromRelease := pr.1.tagName, toRelease := pr.2.tagName })
      { st2 with db := stamped.foldl saveFileChange st2.db,
                 calls := st2.calls ++ fcalls }

/-- One iteration of the pair loop of `runIndexingAsync`: probe the cache
(error discarded) and either skip or take the fetch path. -/
def processPair (o : Oracle) (owner repo : String) (totalPairs : Nat)
    (st : RunState) (pr : Release × Release) : RunState :=
  if hasFileChangesCachedCall o st.db owner repo pr.1.tagName pr.2.tagName then
    { st with skipped := st.skipped + 1 }
  else
    processPairFetch o totalPairs st pr

/-- The progress values written by the release-saving loop:
`updateIndexProgress(20 + i*10/len(releases), 100, ...)` for each index `i`. -/
def savingTrace (n : Nat) : List Nat :=
  (List.range n).map (fun i => 20 + i * 10 / n)

/-- Every progress value written before the pair loop starts: the initial 0,
the release-fetch callbacks, the 20 checkpoint, the saving loop's values and
the 30 checkpoint. -/
def preTrace (o : Oracle) : List Nat :=
  ((0 :: (fetchAllReleasesForIndexing o).2) ++
    (20 :: savingTrace (fetchAllReleasesForIndexing o).1.length)) ++ [30]

/-- Model of `runIndexingAsync` (server.go lines 251-325). The progress
writes, in order: the initial `updateIndexProgress(0, 100, ...)`, the
release-fetch callbacks, `updateIndexProgress(20, ...)`, the per-release
saving updates `20 + i*10/len`, `updateIndexProgress(30, ...)`, the pair
loop's estimates, and `finishIndexing` setting progress to the total (100).
Saving releases and writing their progress values interleave in Go; the
folds here produce the same final database and the same trace. -/
def runIndexingAsync (o : Oracle) (owner repo : String) (db0 : DBState) : RunState :=
  let releases := (fetchAllReleasesForIndexing o).1
  let st0 : RunState := ⟨releases.foldl saveRelease db0, 0, 0, [], preTrace o⟩
  let st1 := (indexPairs releases).foldl
    (processPair o owner repo (releases.length - 1)) st0
  { st1 with progressTrace := st1.progressTrace ++ [100] }

/-! ### Structural lemmas about the run -/

theorem foldl_saveCommit_fileChanges (cs : List Commit) (db : DBState) :
    (cs.foldl saveCommit db).fileChanges = db.fileChanges := by
  induction cs generalizing db with
  | nil => rfl
  | cons a as ih => rw [List.foldl_cons, ih]; rfl

theorem foldl_saveFileChange_fileChanges (fcs : List FileChange) (db : DBState) :
    (fcs.foldl saveFileChange db).fileChanges = db.fileChanges ++ fcs := by
  induction fcs generalizing db with
  | nil => simp
  | cons a as ih =>
    rw [List.foldl_cons, ih]
    simp [saveFileChange]

theorem processPairFetch_projections (o : Oracle) (T : Nat) (st : RunState)
    (pr : Release × Release) :
    (processPairFetch o T st pr).processed = st.processed + 1 ∧
    (processPairFetch o T st pr).skipped = st.skipped ∧
    (processPairFetch o T st pr).progressTrace =
      st.progressTrace ++ [30 + (st.processed + 1) * 70 /
        ((st.processed + 1) + (T - st.skipped - (st.processed + 1)) + 1)] := by
  unfold processPairFetch
  rcases hc : fetchCommitsForIndexing o pr.1.commitSHA pr.2.commitSHA with ⟨cres, ccalls⟩
  cases cres with
  | error e => simp
  | ok commits =>
    rcases hf : fetchFileChangesForIndexing o pr.1.commitSHA pr.2.commitSHA with ⟨fres, fcalls⟩
    cases fres with
    | error e => simp [hf]
    | ok files => simp [hf]

theorem processPairFetch_fileChanges_extend (o : Oracle) (T : Nat) (st : RunState)
    (pr : Release × Release) :
    ∃ ext, (processPairFetch o T st pr).db.fileChanges = st.db.fileChanges ++ ext := by
  unfold processPairFetch
  rcases hc : fetchCommitsForIndexing o pr.1.commitSHA pr.2.commitSHA with ⟨cres, ccalls⟩
  cases cres with
  | error e => exact ⟨[], by simp⟩
  | ok commits =>
    rcases hf : fetchFileChangesForIndexing o pr.1.commitSHA pr.2.commitSHA with ⟨fres, fcalls⟩
    cases fres with
    | error e =>
      exact ⟨[], by simp [hf, foldl_saveCommit_fileChanges]⟩
    | ok files =>
      refine ⟨files.map (fun fc =>
        { fc with fromRelease := pr.1.tagName, toRelease := pr.2.tagName }), ?_⟩
      simp [hf, foldl_saveFileChange_fileChanges, foldl_saveCommit_fileChanges]

/-! ### Demonstration data for witnesses and counterexamples -/

def demoR0 : Release := ⟨"v3.0.0", "v3", 300, "ccc", "", "alice", "tool"⟩

def demoR1 : Release := ⟨"v2.0.0", "v2", 200, "bbb", "", "alice", "tool"⟩

def demoR2 : Release := ⟨"v1.0.0", "v1", 100, "aaa", "", "alice", "tool"⟩

/-! ### C1 -/

/-- C1: for a fetched release list sorted descending by publish time
`[R0, ..., Rn]`, the indexing loop enumerates exactly the `n` consecutive
pairs `(older = R1, newer = R0), ..., (older = Rn, newer = Rn-1)`, in that
order and with no other pairs: the pair sequence has length `n` and its
`i`-th element is `(R_{i+1}, R_i)`. -/
theorem indexPairs_correct (rs : List Release) :
    (indexPairs rs).length = rs.length - 1 ∧
    ∀ i : Nat, ∀ h : i + 1 < rs.length,
      (indexPairs rs).get? i =
        some (rs.get ⟨i + 1, h⟩, rs.get ⟨i, Nat.lt_of_succ_lt h⟩) :=
  ⟨indexPairs_length rs, fun i h => indexPairs_get? rs i h⟩

theorem indexPairs_correct_witness :
    (0 + 1 < ([demoR0, demoR1, demoR2] : List Release).length) ∧
    (indexPairs [demoR0, demoR1, demoR2]).get? 0 = some (demoR1, demoR0) :=
  ⟨by decide, (indexPairs_correct [demoR0, demoR1, demoR2]).2 0 (by decide)⟩

/-! ### C4 -/

def relRepoA : Release := ⟨"v1.0.0", "first", 100, "aaa", "", "alice", "tool"⟩

def relRepoB : Release := ⟨"v1.0.0", "second", 200, "bbb", "", "bob", "gadget"⟩

def cmRepoA : Commit := ⟨"abc123", "fix", "a", "a@x", 100, "", "alice", "tool", none⟩

def cmRepoB : Commit := ⟨"abc123", "feat", "b", "b@x", 200, "", "bob", "gadget", none⟩

/-- C4 (failing input): the `releases` table's primary key is `tag_name`
alone and the `commits` table's is `sha` alone, so a save under the same tag
from a different `(owner, repo)` replaces the other repository's record:
after saving release `v1.0.0` of `alice/tool` and then release `v1.0.0` of
`bob/gadget`, a single row remains (the second), and `GetRelease` no longer
finds `alice/tool`'s release; likewise for two commits sharing a SHA across
repositories. -/
theorem save_distinct_identity_clobbers :
    ((saveRelease (saveRelease DBState.empty relRepoA) relRepoB).releases = [relRepoB] ∧
      getRelease (saveRelease (saveRelease DBState.empty relRepoA) relRepoB)
        "alice" "tool" "v1.0.0" = none) ∧
    (saveCommit (saveCommit DBState.empty cmRepoA) cmRepoB).commits = [cmRepoB] := by
  decide

/-! ### C8 -/

/-- C8: `extractPrNumber` yields 42, 7 and 99 on the three sample messages,
and yields nothing on any message in which none of the three reference
patterns `#`, `PR #`, `pull/` occurs. -/
theorem extractPrNumber_spec :
    extractPrNumber "fix bug (#42)".toList = some 42 ∧
    extractPrNumber "Merge PR #7".toList = some 7 ∧
    extractPrNumber "see pull/99 for details".toList = some 99 ∧
    ∀ msg : List Char,
      strIndex ['#'] msg = none →
      strIndex ['P', 'R', ' ', '#'] msg = none →
      strIndex ['p', 'u', 'l', 'l', '/'] msg = none →
      extractPrNumber msg = none := by
  refine ⟨by decide, by decide, by decide, ?_⟩
  intro msg h1 h2 h3
  simp [extractPrNumber, extractLoop, h1, h2, h3]

theorem extractPrNumber_spec_witness :
    (strIndex ['#'] "release notes".toList = none ∧
      strIndex ['P', 'R', ' ', '#'] "release notes".toList = none ∧
      strIndex ['p', 'u', 'l', 'l', '/'] "release notes".toList = none) ∧
    extractPrNumber "release notes".toList = none :=
  ⟨⟨by decide, by decide, by decide⟩,
    extractPrNumber_spec.2.2.2 "release notes".toList (by decide) (by decide) (by decide)⟩

/-! ### C9 -/

/-- C9: a start request while a run is active is rejected and leaves the
status record (owner, repo, running flag, progress, total, message, error)
exactly as it was. -/
theorem tryStartIndexing_rejected_no_side_effects (st : IndexStatus)
    (owner repo : String) (h : st.isRunning = true) :
    tryStartIndexing st owner repo = (false, st) := by
  unfold tryStartIndexing
  split
  · rfl
  · simp [h]

def demoRunningStatus : IndexStatus := ⟨"alice", "tool", true, 42, 100, "Processing", ""⟩

theorem tryStartIndexing_rejected_no_side_effects_witness :
    demoRunningStatus.isRunning = true ∧
    tryStartIndexing demoRunningStatus "bob" "gadget" = (false, demoRunningStatus) :=
  ⟨rfl, tryStartIndexing_rejected_no_side_effects demoRunningStatus "bob" "gadget" rfl⟩

/-! ### C3 -/

theorem hasFileChangesCached_congr (db db' : DBState)
    (h : db.fileChanges = db'.fileChanges) (owner repo ft tt : String) :
    hasFileChangesCached db owner repo ft tt = hasFileChangesCached db' owner repo ft tt := by
  simp [hasFileChangesCached, h]

/-- C3: (i) `hasFileChangesCached` is true iff at least one FileChange row
exists under the exact key; (ii) a pair whose key is cached at its turn is
counted as skipped and its loop iteration changes nothing else — in
particular it performs zero remote calls; (iii) cachedness of any key is
preserved by every loop iteration, so a pair cached before the run is still
cached when its turn comes. -/
theorem cachedPair_skipped_spec :
    (∀ (db : DBState) (owner repo fromTag toTag : String),
      hasFileChangesCached db owner repo fromTag toTag = true ↔
        ∃ fc ∈ db.fileChanges, fcKeyMatch owner repo fromTag toTag fc = true) ∧
    (∀ (o : Oracle) (owner repo : String) (T : Nat) (st : RunState)
      (pr : Release × Release),
      o.cacheCheckFails owner repo pr.1.tagName pr.2.tagName = false →
      hasFileChangesCached st.db owner repo pr.1.tagName pr.2.tagName = true →
      processPair o owner repo T st pr = { st with skipped := st.skipped + 1 }) ∧
    (∀ (o : Oracle) (owner repo : String) (T : Nat) (st : RunState)
      (pr : Release × Release) (ow2 rp2 ft tt : String),
      hasFileChangesCached st.db ow2 rp2 ft tt = true →
      hasFileChangesCached (processPair o owner repo T st pr).db ow2 rp2 ft tt = true) := by
  refine ⟨?_, ?_, ?_⟩
  · intro db owner repo fromTag toTag
    simp [hasFileChangesCached, List.countP_pos_iff]
  · intro o owner repo T st pr h1 h2
    simp [processPair, hasFileChangesCachedCall, h1, h2]
  · intro o owner repo T st pr ow2 rp2 ft tt h
    unfold processPair
    split
    · simpa using h
    · obtain ⟨ext, hext⟩ := processPairFetch_fileChanges_extend o T st pr
      simp only [hasFileChangesCached, hext, List.countP_append,
        decide_eq_true_eq] at h ⊢
      omega

def demoFC : FileChange :=
  ⟨"main.go", 5, 2, 7, "modified", "", "alice", "tool", "v1.0.0", "v2.0.0"⟩

def demoCachedDB : DBState := ⟨[], [], [demoFC]⟩

/-- An oracle whose remote endpoints succeed with empty results and whose
cache check never fails. -/
def okOracle : Oracle :=
  ⟨[[demoR1, demoR2]], fun _ _ => Except.ok [], fun _ _ => Except.ok [],
    fun _ _ _ _ => false⟩

def demoCachedSt : RunState := ⟨demoCachedDB, 0, 0, [], [30]⟩

theorem cachedPair_skipped_spec_witness :
    (okOracle.cacheCheckFails "alice" "tool" "v1.0.0" "v2.0.0" = false ∧
      hasFileChangesCached demoCachedDB "alice" "tool" "v1.0.0" "v2.0.0" = true) ∧
    processPair okOracle "alice" "tool" 1 demoCachedSt (demoR2, demoR1) =
      { demoCachedSt with skipped := demoCachedSt.skipped + 1 } ∧
    (hasFileChangesCached demoCachedDB "alice" "tool" "v1.0.0" "v2.0.0" = true ↔
      ∃ fc ∈ demoCachedDB.fileChanges,
        fcKeyMatch "alice" "tool" "v1.0.0" "v2.0.0" fc = true) :=
  ⟨⟨rfl, by decide⟩,
    cachedPair_skipped_spec.2.1 okOracle "alice" "tool" 1 demoCachedSt
      (demoR2, demoR1) rfl (by decide),
    cachedPair_skipped_spec.1 demoCachedDB "alice" "tool" "v1.0.0" "v2.0.0"⟩

/-! ### C6 -/

/-- C6: a pair in which either release carries an empty commit identifier
triggers no remote call, leaves the whole database unchanged (zero commits
and zero file changes persisted), and the pair's key stays uncached. -/
theorem processPair_emptySHA_spec (o : Oracle) (owner repo : String) (T : Nat)
    (st : RunState) (pr : Release × Release)
    (hchk : o.cacheCheckFails owner repo pr.1.tagName pr.2.tagName = false)
    (hnc : hasFileChangesCached st.db owner repo pr.1.tagName pr.2.tagName = false)
    (hsha : pr.1.commitSHA = "" ∨ pr.2.commitSHA = "") :
    (processPair o owner repo T st pr).calls = st.calls ∧
    (processPair o owner repo T st pr).db = st.db ∧
    hasFileChangesCached (processPair o owner repo T st pr).db owner repo
      pr.1.tagName pr.2.tagName = false := by
  have hcall : hasFileChangesCachedCall o st.db owner repo pr.1.tagName pr.2.tagName = false := by
    simp [hasFileChangesCachedCall, hchk, hnc]
  have hcf : fetchCommitsForIndexing o pr.1.commitSHA pr.2.commitSHA = (Except.ok [], []) := by
    unfold fetchCommitsForIndexing
    rw [if_pos hsha]
  have hff : fetchFileChangesForIndexing o pr.1.commitSHA pr.2.commitSHA =
      (Except.ok [], []) := by
    unfold fetchFileChangesForIndexing
    rw [if_pos hsha]
  have hdb : (processPair o owner repo T st pr).db = st.db := by
    simp [processPair, hcall, processPairFetch, hcf, hff]
  refine ⟨?_, hdb, ?_⟩
  · simp [processPair, hcall, processPairFetch, hcf, hff]
  · rw [hdb]
    exact hnc

def relEmptySHA : Release := ⟨"v0.5.0", "v05", 50, "", "", "alice", "tool"⟩

def demoEmptySt : RunState := ⟨DBState.empty, 0, 0, [], [30]⟩

theorem processPair_emptySHA_spec_witness :
    (okOracle.cacheCheckFails "alice" "tool" "v0.5.0" "v1.0.0" = false ∧
      hasFileChangesCached DBState.empty "alice" "tool" "v0.5.0" "v1.0.0" = false ∧
      (relEmptySHA.commitSHA = "" ∨ demoR2.commitSHA = "")) ∧
    ((processPair okOracle "alice" "tool" 1 demoEmptySt (relEmptySHA, demoR2)).calls =
        demoEmptySt.calls ∧
      (processPair okOracle "alice" "tool" 1 demoEmptySt (relEmptySHA, demoR2)).db =
        demoEmptySt.db ∧
      hasFileChangesCached
        (processPair okOracle "alice" "tool" 1 demoEmptySt (relEmptySHA, demoR2)).db
        "alice" "tool" "v0.5.0" "v1.0.0" = false) :=
  ⟨⟨rfl, by decide, Or.inl rfl⟩,
    processPair_emptySHA_spec okOracle "alice" "tool" 1 demoEmptySt
      (relEmptySHA, demoR2) rfl (by decide) (Or.inl rfl)⟩

/-! ### C10 -/

theorem processPairFetch_calls_head (o : Oracle) (T : Nat) (st : RunState)
    (pr : Release × Release)
    (h1 : ¬ pr.1.commitSHA = "") (h2 : ¬ pr.2.commitSHA = "") :
    ∃ rest, (processPairFetch o T st pr).calls =
      st.calls ++ RemoteCall.compareCommits pr.1.commitSHA pr.2.commitSHA :: rest := by
  have hcf : fetchCommitsForIndexing o pr.1.commitSHA pr.2.commitSHA =
      (o.compareCommits pr.1.commitSHA pr.2.commitSHA,
        [RemoteCall.compareCommits pr.1.commitSHA pr.2.commitSHA]) := by
    unfold fetchCommitsForIndexing
    rw [if_neg (by exact fun hor => hor.elim h1 h2)]
  unfold processPairFetch
  rw [hcf]
  cases hres : o.compareCommits pr.1.commitSHA pr.2.commitSHA with
  | error e => exact ⟨[], by simp⟩
  | ok commits =>
    rcases hff : fetchFileChangesForIndexing o pr.1.commitSHA pr.2.commitSHA with ⟨fres, fcalls⟩
    cases fres with
    | error e => exact ⟨fcalls, by simp [hff]⟩
    | ok files => exact ⟨fcalls, by simp [hff]⟩

/-- C10: when the cached-pair existence check fails, the error is discarded
and the pair is treated as not cached: its iteration is exactly the fetch
path — the pair is counted as processed, not skipped, and (for resolvable
commit identifiers) the remote commit fetch is performed. -/
theorem processPair_checkError_spec (o : Oracle) (owner repo : String) (T : Nat)
    (st : RunState) (pr : Release × Release)
    (herr : o.cacheCheckFails owner repo pr.1.tagName pr.2.tagName = true)
    (h1 : ¬ pr.1.commitSHA = "") (h2 : ¬ pr.2.commitSHA = "") :
    processPair o owner repo T st pr = processPairFetch o T st pr ∧
    (processPair o owner repo T st pr).skipped = st.skipped ∧
    (processPair o owner repo T st pr).processed = st.processed + 1 ∧
    ∃ rest, (processPair o owner repo T st pr).calls =
      st.calls ++ RemoteCall.compareCommits pr.1.commitSHA pr.2.commitSHA :: rest := by
  have hstep : processPair o owner repo T st pr = processPairFetch o T st pr := by
    simp [processPair, hasFileChangesCachedCall, herr]
  refine ⟨hstep, ?_, ?_, ?_⟩
  · rw [hstep]
    exact (processPairFetch_projections o T st pr).2.1
  · rw [hstep]
    exact (processPairFetch_projections o T st pr).1
  · rw [hstep]
    exact processPairFetch_calls_head o T st pr h1 h2

/-- An oracle whose cache check always reports a query error. -/
def checkErrOracle : Oracle :=
  ⟨[[demoR1, demoR2]], fun _ _ => Except.ok [], fun _ _ => Except.ok [],
    fun _ _ _ _ => true⟩

theorem processPair_checkError_spec_witness :
    (checkErrOracle.cacheCheckFails "alice" "tool" "v1.0.0" "v2.0.0" = true ∧
      ¬ demoR2.commitSHA = "" ∧ ¬ demoR1.commitSHA = "") ∧
    (processPair checkErrOracle "alice" "tool" 1 demoCachedSt (demoR2, demoR1) =
        processPairFetch checkErrOracle 1 demoCachedSt (demoR2, demoR1) ∧
      (processPair checkErrOracle "alice" "tool" 1 demoCachedSt (demoR2, demoR1)).skipped =
        demoCachedSt.skipped ∧
      (processPair checkErrOracle "alice" "tool" 1 demoCachedSt (demoR2, demoR1)).processed =
        demoCachedSt.processed + 1 ∧
      ∃ rest,
        (processPair checkErrOracle "alice" "tool" 1 demoCachedSt (demoR2, demoR1)).calls =
          demoCachedSt.calls ++ RemoteCall.compareCommits demoR2.commitSHA demoR1.commitSHA :: rest) :=
  ⟨⟨rfl, by decide, by decide⟩,
    processPair_checkError_spec checkErrOracle "alice" "tool" 1 demoCachedSt
      (demoR2, demoR1) rfl (by decide) (by decide)⟩

/-! ### C2 -/

/-- An oracle whose compare/diff endpoints always fail. -/
def failOracle : Oracle :=
  ⟨[[demoR1, demoR2]], fun _ _ => Except.error "boom", fun _ _ => Except.error "boom",
    fun _ _ _ _ => false⟩

/-- C2 (counterexample): on a run over two releases whose single pair's
commit fetch fails, the pair ends up with no cached file changes, yet the
final processed count is 1, not 0 — the failed pair IS counted in
`processed`, contradicting the claim that it is not. -/
theorem runIndexing_failedPair_counted_processed :
    (runIndexingAsync failOracle "alice" "tool" DBState.empty).processed = 1 ∧
    (runIndexingAsync failOracle "alice" "tool" DBState.empty).calls =
      [RemoteCall.compareCommits "aaa" "bbb"] ∧
    hasFileChangesCached (runIndexingAsync failOracle "alice" "tool" DBState.empty).db
      "alice" "tool" "v1.0.0" "v2.0.0" = false := by
  decide

/-- C2 (amended): a pair whose commit fetch or whose file-diff fetch fails is
left uncached — the loop writes no FileChange rows for it and moves to the
next pair — but it IS counted in the processed count, which `runIndexingAsync`
increments before attempting the fetches. -/
theorem processPair_fetchFailure_spec (o : Oracle) (owner repo : String) (T : Nat)
    (st : RunState) (pr : Release × Release) (ce fe : String) (cs : List Commit)
    (hchk : o.cacheCheckFails owner repo pr.1.tagName pr.2.tagName = false)
    (hnc : hasFileChangesCached st.db owner repo pr.1.tagName pr.2.tagName = false)
    (h1 : ¬ pr.1.commitSHA = "") (h2 : ¬ pr.2.commitSHA = "")
    (hfail : o.compareCommits pr.1.commitSHA pr.2.commitSHA = Except.error ce ∨
      (o.compareCommits pr.1.commitSHA pr.2.commitSHA = Except.ok cs ∧
        o.diffFiles pr.1.commitSHA pr.2.commitSHA = Except.error fe)) :
    (processPair o owner repo T st pr).db.fileChanges = st.db.fileChanges ∧
    hasFileChangesCached (processPair o owner repo T st pr).db owner repo
      pr.1.tagName pr.2.tagName = false ∧
    (processPair o owner repo T st pr).processed = st.processed + 1 ∧
    (processPair o owner repo T st pr).skipped = st.skipped := by
  have hcall : hasFileChangesCachedCall o st.db owner repo pr.1.tagName pr.2.tagName = false := by
    simp [hasFileChangesCachedCall, hchk, hnc]
  have hstep : processPair o owner repo T st pr = processPairFetch o T st pr := by
    simp [processPair, hcall]
  have hcf : fetchCommitsForIndexing o pr.1.commitSHA pr.2.commitSHA =
      (o.compareCommits pr.1.commitSHA pr.2.commitSHA,
        [RemoteCall.compareCommits pr.1.commitSHA pr.2.commitSHA]) := by
    unfold fetchCommitsForIndexing
    rw [if_neg (by exact fun hor => hor.elim h1 h2)]
  have hfc : (processPair o owner repo T st pr).db.fileChanges = st.db.fileChanges := by
    rw [hstep]
    unfold processPairFetch
    rw [hcf]
    rcases hfail with hce | ⟨hok, hfe⟩
    · rw [hce]
    · rw [hok]
      have hffc : fetchFileChangesForIndexing o pr.1.commitSHA pr.2.commitSHA =
          (o.diffFiles pr.1.commitSHA pr.2.commitSHA,
            [RemoteCall.diffFiles pr.1.commitSHA pr.2.commitSHA]) := by
        unfold fetchFileChangesForIndexing
        rw [if_neg (by exact fun hor => hor.elim h1 h2)]
      rw [hffc, hfe]
      simp [foldl_saveCommit_fileChanges]
  refine ⟨hfc, ?_, ?_, ?_⟩
  · rw [hasFileChangesCached_congr _ st.db hfc]
    exact hnc
  · rw [hstep]
    exact (processPairFetch_projections o T st pr).1
  · rw [hstep]
    exact (processPairFetch_projections o T st pr).2.1

theorem processPair_fetchFailure_spec_witness :
    (failOracle.cacheCheckFails "alice" "tool" "v1.0.0" "v2.0.0" = false ∧
      hasFileChangesCached DBState.empty "alice" "tool" "v1.0.0" "v2.0.0" = false ∧
      ¬ demoR2.commitSHA = "" ∧ ¬ demoR1.commitSHA = "" ∧
      failOracle.compareCommits demoR2.commitSHA demoR1.commitSHA = Except.error "boom") ∧
    ((processPair failOracle "alice" "tool" 1 demoEmptySt (demoR2, demoR1)).db.fileChanges =
        demoEmptySt.db.fileChanges ∧
      hasFileChangesCached
        (processPair failOracle "alice" "tool" 1 demoEmptySt (demoR2, demoR1)).db
        "alice" "tool" "v1.0.0" "v2.0.0" = false ∧
      (processPair failOracle "alice" "tool" 1 demoEmptySt (demoR2, demoR1)).processed =
        demoEmptySt.processed + 1 ∧
      (processPair failOracle "alice" "tool" 1 demoEmptySt (demoR2, demoR1)).skipped =
        demoEmptySt.skipped) :=
  ⟨⟨rfl, by decide, by decide, by decide, rfl⟩,
    processPair_fetchFailure_spec failOracle "alice" "tool" 1 demoEmptySt
      (demoR2, demoR1) "boom" "" [] rfl (by decide) (by decide) (by decide) (Or.inl rfl)⟩

/-! ### C5 -/

/-- An oracle delivering the releases on two pages: the pagination progress
callback then fires with `totalPages` frozen at the first `NextPage`. -/
def twoPageOracle : Oracle :=
  ⟨[[demoR1], [demoR2]], fun _ _ => Except.ok [], fun _ _ => Except.ok [],
    fun _ _ _ _ => false⟩

/-- Executable check that a list of progress values is monotonically
non-decreasing between successive entries. -/
def monotoneTrace : List Nat → Bool
  | a :: b :: rest => a ≤ b && monotoneTrace (b :: rest)
  | _ => true

theorem monotoneTrace_iff_chain (l : List Nat) :
    monotoneTrace l = true ↔ List.Chain' (fun a b : Nat => a ≤ b) l := by
  match l with
  | [] => simp [monotoneTrace]
  | [a] => simp [monotoneTrace]
  | a :: b :: rest =>
    rw [List.chain'_cons]
    simp only [monotoneTrace, Bool.and_eq_true, decide_eq_true_eq]
    rw [monotoneTrace_iff_chain (b :: rest)]

/-- C5 (counterexample): with a two-page release listing, the progress
sequence written by the run is `[0, 100, 20, 20, 25, 30, 65, 100]` — the
fetch-phase callback reports `page*100/totalPages = 100`, which then drops
to the 20 checkpoint — so the observed progress values are not monotonically
non-decreasing. -/
theorem runIndexing_progress_not_monotone :
    ¬ List.Chain' (fun a b : Nat => a ≤ b)
      (runIndexingAsync twoPageOracle "alice" "tool" DBState.empty).progressTrace := by
  rw [← monotoneTrace_iff_chain]
  decide

theorem chain_le_concat (l : List Nat) (x : Nat)
    (hl : List.Chain' (fun a b : Nat => a ≤ b) l)
    (hx : ∀ y ∈ l.getLast?, y ≤ x) :
    List.Chain' (fun a b : Nat => a ≤ b) (l ++ [x]) := by
  rw [List.chain'_append]
  refine ⟨hl, List.chain'_singleton x, ?_⟩
  intro a ha b hb
  simp only [List.head?_cons, Option.mem_def, Option.some.injEq] at hb
  subst hb
  exact hx a ha

theorem savingTrace_mem_bounds (n : Nat) :
    ∀ y ∈ savingTrace n, 20 ≤ y ∧ y ≤ 30 := by
  intro y hy
  rcases List.mem_map.mp hy with ⟨i, hi, rfl⟩
  have hin : i < n := List.mem_range.mp hi
  have hpos : 0 < n := Nat.lt_of_le_of_lt (Nat.zero_le i) hin
  have hdiv : i * 10 / n < 10 := by
    rw [Nat.div_lt_iff_lt_mul hpos]
    omega
  refine ⟨Nat.le_add_right 20 _, ?_⟩
  calc 20 + i * 10 / n ≤ 20 + 9 := Nat.add_le_add_left (Nat.lt_succ_iff.mp hdiv) 20
    _ ≤ 30 := by omega

theorem savingTrace_chain (n : Nat) :
    List.Chain' (fun a b : Nat => a ≤ b) (savingTrace n) := by
  unfold savingTrace
  rw [List.chain'_map]
  cases n with
  | zero => simp
  | succ m =>
    rw [List.chain'_range_succ]
    intro i hi
    exact Nat.add_le_add_left
      (Nat.div_le_div_right (Nat.mul_le_mul_right 10 (Nat.le_succ i))) 20

theorem fetchAllReleases_singlePage (o : Oracle) (h : o.releasePages.length ≤ 1) :
    (fetchAllReleasesForIndexing o).2 = [] := by
  unfold fetchAllReleasesForIndexing
  rcases hp : o.releasePages with _ | ⟨p, _ | ⟨q, qs⟩⟩
  · rfl
  · rfl
  · rw [hp] at h
    simp at h

theorem preTrace_chain (o : Oracle) (h : (fetchAllReleasesForIndexing o).2 = []) :
    List.Chain' (fun a b : Nat => a ≤ b) (preTrace o) ∧
    (preTrace o).getLast? = some 30 := by
  unfold preTrace
  rw [h]
  constructor
  · apply chain_le_concat
    · rw [List.chain'_append]
      refine ⟨List.chain'_singleton 0, ?_, ?_⟩
      · rw [List.chain'_cons']
        refine ⟨?_, savingTrace_chain _⟩
        intro y hy
        have hmem : y ∈ savingTrace (fetchAllReleasesForIndexing o).1.length :=
          List.mem_of_mem_head? hy
        exact (savingTrace_mem_bounds _ y hmem).1
      · intro a ha b hb
        simp only [List.getLast?_singleton, Option.mem_def, Option.some.injEq] at ha
        simp only [List.head?_cons, Option.mem_def, Option.some.injEq] at hb
        omega
    · intro y hy
      have hmem : y ∈ [0] ++ (20 :: savingTrace (fetchAllReleasesForIndexing o).1.length) :=
        List.mem_of_getLast?_eq_some hy
      simp only [List.singleton_append, List.mem_cons] at hmem
      rcases hmem with h0 | h20 | hs
      · omega
      · omega
      · exact (savingTrace_mem_bounds _ y hs).2
  · exact List.getLast?_concat _

/-- The inductive invariant of the pair loop: starting from a monotone trace
whose last value is below the current progress estimate, every further write
is at least the previous one, the counters never exceed the pair total, and
the last value stays below the (monotone) estimate. -/
theorem pairLoop_progress_invariant (o : Oracle) (owner repo : String) (T : Nat)
    (ps : List (Release × Release)) :
    ∀ (st : RunState),
      st.processed + st.skipped + ps.length ≤ T →
      List.Chain' (fun a b : Nat => a ≤ b) st.progressTrace →
      (∀ L ∈ st.progressTrace.getLast?,
        L ≤ 30 + st.processed * 70 / (T - st.skipped + 1)) →
      List.Chain' (fun a b : Nat => a ≤ b)
        (ps.foldl (processPair o owner repo T) st).progressTrace ∧
      (ps.foldl (processPair o owner repo T) st).processed +
        (ps.foldl (processPair o owner repo T) st).skipped ≤ T ∧
      (∀ L ∈ (ps.foldl (processPair o owner repo T) st).progressTrace.getLast?,
        L ≤ 30 + (ps.foldl (processPair o owner repo T) st).processed * 70 /
          (T - (ps.foldl (processPair o owner repo T) st).skipped + 1)) := by
  induction ps with
  | nil =>
    intro st h1 h2 h3
    exact ⟨h2, by simpa using h1, h3⟩
  | cons pr ps ih =>
    intro st h1 h2 h3
    simp only [List.length_cons] at h1
    rw [List.foldl_cons]
    by_cases hc : hasFileChangesCachedCall o st.db owner repo pr.1.tagName pr.2.tagName = true
    · have hstep : processPair o owner repo T st pr = { st with skipped := st.skipped + 1 } := by
        simp [processPair, hc]
      rw [hstep]
      apply ih
      · show st.processed + (st.skipped + 1) + ps.length ≤ T
        omega
      · exact h2
      · intro L hL
        have hb := h3 L hL
        show L ≤ 30 + st.processed * 70 / (T - (st.skipped + 1) + 1)
        refine le_trans hb (Nat.add_le_add_left (Nat.div_le_div_left ?_ ?_) 30)
        · omega
        · omega
    · have hstep : processPair o owner repo T st pr = processPairFetch o T st pr := by
        simp [processPair, hc]
      rw [hstep]
      obtain ⟨hproc, hskip, htrace⟩ := processPairFetch_projections o T st pr
      have hple : st.processed + 1 ≤ T - st.skipped := by omega
      have hden : (st.processed + 1) + (T - st.skipped - (st.processed + 1)) + 1 =
          T - st.skipped + 1 := by omega
      apply ih
      · rw [hproc, hskip]
        omega
      · rw [htrace]
        apply chain_le_concat _ _ h2
        intro y hy
        have hb := h3 y hy
        refine le_trans hb ?_
        rw [hden]
        exact Nat.add_le_add_left
          (Nat.div_le_div_right (Nat.mul_le_mul_right 70 (Nat.le_succ st.processed))) 30
      · intro L hL
        rw [htrace, List.getLast?_concat] at hL
        simp only [Option.mem_def, Option.some.injEq] at hL
        subst hL
        rw [hproc, hskip, hden]

/-- C5 (amended): provided the release listing completes on a single page
(so the pagination callback — whose `page*100/totalPages` estimate can
exceed 100 and then drop to the 20 checkpoint — never fires), every progress
value written to the status during the run is at least the previous one, so
any sequence of successive polls observes monotonically non-decreasing
progress until the run finishes. -/
theorem runIndexing_progress_monotone (o : Oracle) (owner repo : String)
    (db0 : DBState) (h : o.releasePages.length ≤ 1) :
    List.Chain' (fun a b : Nat => a ≤ b)
      (runIndexingAsync o owner repo db0).progressTrace := by
  have hcb := fetchAllReleases_singlePage o h
  obtain ⟨hchain, hlast⟩ := preTrace_chain o hcb
  unfold runIndexingAsync
  simp only []
  set releases := (fetchAllReleasesForIndexing o).1 with hrel
  set T := releases.length - 1 with hT
  set st0 : RunState :=
    ⟨releases.foldl saveRelease db0, 0, 0, [], preTrace o⟩ with hst0
  have hinv := pairLoop_progress_invariant o owner repo T (indexPairs releases) st0
    (by simp [hst0, indexPairs_length, hT])
    (by simpa [hst0] using hchain)
    (by
      intro L hL
      simp only [hst0] at hL
      rw [hlast] at hL
      simp only [Option.mem_def, Option.some.injEq] at hL
      subst hL
      simp)
  obtain ⟨hchainF, hcntF, hlastF⟩ := hinv
  apply chain_le_concat _ _ hchainF
  intro y hy
  have hb := hlastF y hy
  set stF := (indexPairs releases).foldl (processPair o owner repo T) st0
  have hp : stF.processed ≤ T - stF.skipped + 1 := by omega
  have hdivle : stF.processed * 70 / (T - stF.skipped + 1) ≤ 70 := by
    calc stF.processed * 70 / (T - stF.skipped + 1)
        ≤ (T - stF.skipped + 1) * 70 / (T - stF.skipped + 1) :=
          Nat.div_le_div_right (Nat.mul_le_mul_right 70 hp)
      _ = 70 := Nat.mul_div_cancel_left 70 (by omega)
  omega

def onePageOracle : Oracle :=
  ⟨[[demoR1, demoR2]], fun _ _ => Except.ok [], fun _ _ => Except.ok [],
    fun _ _ _ _ => false⟩

theorem runIndexing_progress_monotone_witness :
    onePageOracle.releasePages.length ≤ 1 ∧
    List.Chain' (fun a b : Nat => a ≤ b)
      (runIndexingAsync onePageOracle "alice" "tool" DBState.empty).progressTrace :=
  ⟨by decide,
    runIndexing_progress_monotone onePageOracle "alice" "tool" DBState.empty (by decide)⟩

/-! ### C7 -/

/-- C7: under the schema's primary-key guarantee that tag names are unique
in the `releases` table, `GetCommitsBetween(owner, repo, fromTag, toTag)`
returns exactly (as a multiset) the stored commits of `(owner, repo)` whose
authored date lies within `[fromRelease.publishedAt, toRelease.publishedAt]`
— a timestamp-range selection, not graph ancestry — ordered ascending by
commit date. -/
theorem getCommitsBetween_spec (db : DBState) (owner repo fromTag toTag : String)
    (rFrom rTo : Release)
    (hnd : (db.releases.map Release.tagName).Nodup)
    (hF : rFrom ∈ db.releases) (hFt : rFrom.tagName = fromTag)
    (hT : rTo ∈ db.releases) (hTt : rTo.tagName = toTag) :
    (getCommitsBetween db owner repo fromTag toTag).Perm
      (db.commits.filter (specCommitWindow owner repo rFrom rTo)) ∧
    (getCommitsBetween db owner repo fromTag toTag).Sorted dateLE := by
  constructor
  · unfold getCommitsBetween
    rw [commitsBetweenRows_eq_filter db owner repo fromTag toTag rFrom rTo hnd hF hFt hT hTt]
    exact List.perm_insertionSort dateLE _
  · exact List.sorted_insertionSort dateLE _

def demoCmIn : Commit := ⟨"c1", "fix bug (#42)", "a", "a@x", 150, "", "alice", "tool", some 42⟩

def demoCmOut : Commit := ⟨"c2", "later work", "b", "b@x", 250, "", "alice", "tool", none⟩

def demoDB7 : DBState := ⟨[demoR0, demoR1, demoR2], [demoCmIn, demoCmOut], []⟩

theorem getCommitsBetween_spec_witness :
    ((demoDB7.releases.map Release.tagName).Nodup ∧
      demoR2 ∈ demoDB7.releases ∧ demoR2.tagName = "v1.0.0" ∧
      demoR1 ∈ demoDB7.releases ∧ demoR1.tagName = "v2.0.0") ∧
    ((getCommitsBetween demoDB7 "alice" "tool" "v1.0.0" "v2.0.0").Perm
        (demoDB7.commits.filter (specCommitWindow "alice" "tool" demoR2 demoR1)) ∧
      (getCommitsBetween demoDB7 "alice" "tool" "v1.0.0" "v2.0.0").Sorted dateLE) :=
  ⟨⟨by decide, by decide, rfl, by decide, rfl⟩,
    getCommitsBetween_spec demoDB7 "alice" "tool" "v1.0.0" "v2.0.0" demoR2 demoR1
      (by decide) (by decide) rfl (by decide) rfl⟩

end Ordiff
